import Mathlib

/-!
# Verification of the zfs_exporter data-acquisition core

A shallow embedding of the data-acquisition and aggregation pipeline of the
`zfs_exporter` repository, together with theorems settling the frozen claims
about it.

Embedded components and their sources:

* `parsePools` / `parsePoolFields`       — `pkg/zfs/pool.go`
* `parseDatasets` / `parseDatasetFields`,
  `extractPool`, `isShareEnabled`        — the dataset parser of package `zfs`
* `parseScanStatuses`, `tryParseProgress`,
  `newActiveScan`                        — `pkg/zfs/scan.go`
* `checkServiceUnits`                    — `pkg/host/service.go`
* `collect` and the metric builders      — `collector/collector.go`

Modelling conventions:

* Go `float64` values are modelled by `GoFloat`: an exact rational for finite
  values plus explicit infinity/NaN constructors.  The claims checked here
  concern sign, zero tests, exact quotients and the NaN sentinel, none of
  which depend on IEEE-754 rounding, so exact rationals are faithful for
  them.  (`strconv.ParseFloat` range errors on extreme exponents are not
  modelled; no claim exercises them.)
* Go strings are Lean `String`s.  Byte strings handed to the parsers are
  modelled as `String` as well (the parsers only ever treat them as text).
* The character classes used by the Go code are modelled exactly:
  `isSpaceRE` is RE2's `\s` class `[\t\n\f\r ]`, and `isSpaceGo` is the
  ASCII part of Go's `unicode.IsSpace` as used by `strings.TrimSpace`
  (the non-ASCII spaces U+0085/U+00A0 do not occur in any input considered
  here).
* `strings.Split` / `strings.SplitSeq` with a one-character separator is
  `splitStr`, and regular-expression matching is compiled by hand into
  deterministic character-list scanners; each scanner's doc comment records
  the regex it implements.
-/

namespace ZfsExp

/-! ## Characters and strings -/

/-- RE2's `\s` character class `[\t\n\f\r ]` (used by the scan regexes). -/
def isSpaceRE (c : Char) : Bool :=
  c = ' ' || c = '\t' || c = '\n' || c = '\x0c' || c = '\r'

/-- The ASCII whitespace recognised by Go's `strings.TrimSpace`
(`'\t' '\n' '\v' '\f' '\r' ' '`). -/
def isSpaceGo (c : Char) : Bool :=
  c = ' ' || c = '\t' || c = '\n' || c = '\x0b' || c = '\x0c' || c = '\r'

/-- `strings.TrimSpace`: strip leading and trailing whitespace. -/
def goTrimSpace (s : String) : String :=
  String.mk (((s.data.dropWhile isSpaceGo).reverse.dropWhile isSpaceGo).reverse)

/-- `strings.Split` with a single-character separator. -/
def splitChar (sep : Char) : List Char → List (List Char)
  | [] => [[]]
  | c :: cs =>
    if c = sep then [] :: splitChar sep cs
    else
      match splitChar sep cs with
      | [] => [[c]]
      | h :: t => (c :: h) :: t

/-- `strings.Split s sep` for a one-character `sep`, on `String`s. -/
def splitStr (sep : Char) (s : String) : List String :=
  (splitChar sep s.data).map String.mk

/-- Match a literal: if `cs` starts with `lit`, return the remainder. -/
def stripLit : List Char → List Char → Option (List Char)
  | [], cs => some cs
  | _ :: _, [] => none
  | l :: ls, c :: cs => if c = l then stripLit ls cs else none

/-- `strings.Contains`: does `cs` contain `pat` as a contiguous substring? -/
def containsSub (pat : List Char) : List Char → Bool
  | [] => (stripLit pat []).isSome
  | c :: cs => (stripLit pat (c :: cs)).isSome || containsSub pat cs

/-- Numeric value of a string of decimal digits (most significant first). -/
def digitsToNat (ds : List Char) : Nat :=
  ds.foldl (fun n c => n * 10 + (c.toNat - 48)) 0

/-- `strconv.ParseUint(s, 10, 64)`: a non-empty all-digit string whose value
fits in 64 bits; no sign, no underscores (base 10 is explicit in the call). -/
def parseUint64 (s : String) : Option Nat :=
  if !s.data.isEmpty && s.data.all Char.isDigit then
    let n := digitsToNat s.data
    if n < 2 ^ 64 then some n else none
  else none

/-- ASCII `strings.ToUpper` (pool health strings are ASCII). -/
def goToUpper (s : String) : String := String.mk (s.data.map Char.toUpper)

/-- ASCII `strings.ToLower` (used on pool health by the collector). -/
def goToLower (s : String) : String := String.mk (s.data.map Char.toLower)

/-! ## Go float64 values -/

/-- A Go `float64` as this code uses it: finite values kept exact as
rationals, plus infinities and NaN. -/
inductive GoFloat where
  | finite (q : ℚ)
  | inf (neg : Bool)
  | nan
deriving DecidableEq, Repr

/-- Digits of a decimal mantissa `d1 [. d2]` with optional exponent, as an
exact rational: `(d1 ++ d2) / 10^|d2| * 10^exp`. -/
def decValue (d1 d2 : List Char) (expNeg : Bool) (expDigits : List Char) : ℚ :=
  let mant : ℚ := (digitsToNat (d1 ++ d2) : ℚ) / (10 : ℚ) ^ d2.length
  let e := digitsToNat expDigits
  if expNeg then mant / (10 : ℚ) ^ e else mant * (10 : ℚ) ^ e

/-- Mantissa-and-exponent part of `strconv.ParseFloat`: `digits [. digits]`
or `. digits`, then an optional `e`/`E` exponent, nothing left over. -/
def parseDecMantissa (neg : Bool) (cs : List Char) : Option GoFloat :=
  let d1 := cs.takeWhile Char.isDigit
  let r1 := cs.dropWhile Char.isDigit
  let (d2, r2) :=
    match r1 with
    | '.' :: rest => (rest.takeWhile Char.isDigit, rest.dropWhile Char.isDigit)
    | _ => ([], r1)
  if d1.length + d2.length = 0 then none
  else
    match r2 with
    | [] => some (.finite (if neg then -decValue d1 d2 false [] else decValue d1 d2 false []))
    | e :: r3 =>
      if e = 'e' || e = 'E' then
        let (eneg, r4) :=
          match r3 with
          | '+' :: r => (false, r)
          | '-' :: r => (true, r)
          | r => (false, r)
        if !r4.isEmpty && r4.all Char.isDigit then
          some (.finite (if neg then -decValue d1 d2 eneg r4 else decValue d1 d2 eneg r4))
        else none
      else none

/-- `strconv.ParseFloat(s, 64)` on the forms this program can meet: optional
sign, then `inf`/`infinity` (case-insensitive), bare `nan`, or a decimal
mantissa with optional exponent.  Hexadecimal floats, digit underscores and
out-of-range errors are not modelled; no claim exercises them, and rounding
to the nearest `float64` is dropped in favour of the exact value. -/
def parseGoFloat (s : String) : Option GoFloat :=
  let cs := s.data
  let (neg, body) :=
    match cs with
    | '+' :: r => (false, r)
    | '-' :: r => (true, r)
    | r => (false, r)
  let lower := body.map Char.toLower
  if cs = [] then none
  else if lower = "inf".data || lower = "infinity".data then some (.inf neg)
  else if cs.map Char.toLower = "nan".data then some .nan
  else parseDecMantissa neg body

/-! ## Pool parsing (`pkg/zfs/pool.go`) -/

/-- A ZFS storage pool (Go struct `Pool`; the Go field `DedupRatio` is the
field `Dedup` here). -/
structure Pool where
  Name : String
  Size : Nat
  Allocated : Nat
  Free : Nat
  Fragmentation : GoFloat
  Dedup : GoFloat
  Health : String
  ReadOnly : Bool
deriving DecidableEq, Repr

/-- Decidable equality for parser results, used to check concrete runs. -/
instance {ε α : Type} [DecidableEq ε] [DecidableEq α] : DecidableEq (Except ε α)
  | .ok a, .ok b =>
    if h : a = b then .isTrue (by rw [h]) else .isFalse (by simp [h])
  | .ok _, .error _ => .isFalse (by simp)
  | .error _, .ok _ => .isFalse (by simp)
  | .error e, .error f =>
    if h : e = f then .isTrue (by rw [h]) else .isFalse (by simp [h])

/-- Lift an `Option` conversion result into the parser's error monad. -/
def reqSome {α : Type} (o : Option α) (msg : String) : Except String α :=
  match o with
  | some a => .ok a
  | none => .error msg

/-- `parsePoolFields`: convert one 8-field line into a `Pool`.  The
fragmentation field `"-"` becomes NaN; any other value must be an unsigned
integer and is divided by 100. -/
def parsePoolFields (fields : List String) : Except String Pool := do
  let f := fun i => fields.getD i ""
  let size ← reqSome (parseUint64 (f 1)) "invalid size"
  let alloc ← reqSome (parseUint64 (f 2)) "invalid allocated"
  let free ← reqSome (parseUint64 (f 3)) "invalid free"
  let frag ←
    if f 4 = "-" then pure GoFloat.nan
    else do
      let fragInt ← reqSome (parseUint64 (f 4)) "invalid fragmentation"
      pure (GoFloat.finite ((fragInt : ℚ) / 100))
  let dedup ← reqSome (parseGoFloat (f 5)) "invalid dedup ratio"
  .ok { Name := f 0, Size := size, Allocated := alloc, Free := free,
        Fragmentation := frag, Dedup := dedup,
        Health := goToUpper (f 6), ReadOnly := f 7 = "on" }

/-- The per-line loop of `parsePools`: empty lines are skipped, any line
that does not split into exactly 8 tab-separated fields, or whose fields do
not convert, fails the whole call. -/
def parsePoolLines : List String → Except String (List Pool)
  | [] => .ok []
  | line :: rest =>
    if line = "" then parsePoolLines rest
    else
      let fields := splitStr '\t' line
      if fields.length = 8 then do
        let p ← parsePoolFields fields
        let ps ← parsePoolLines rest
        .ok (p :: ps)
      else .error "expected 8 fields"

/-- `parsePools`: parse `zpool list -Hp` output.  Empty or whitespace-only
input yields an empty list and no error. -/
def parsePools (data : String) : Except String (List Pool) :=
  let trimmed := goTrimSpace data
  if trimmed = "" then .ok []
  else parsePoolLines (splitStr '\n' trimmed)

/-! ## Dataset parsing (the dataset parser of package `zfs`) -/

/-- A ZFS dataset (Go struct `Dataset`; the Go field `Type` is `Kind` here,
`Type` being reserved in Lean). -/
structure Dataset where
  Name : String
  Pool : String
  Used : Nat
  Available : Nat
  Referenced : Nat
  Kind : String
  ShareNFS : Bool
  ShareSMB : Bool
deriving DecidableEq, Repr

/-- `extractPool`: the segment of a dataset path before the first `/`, or
the whole name when there is none (`strings.Cut(name, "/")`). -/
def extractPool (name : String) : String :=
  match splitStr '/' name with
  | p :: _ :: _ => p
  | _ => name

/-- `isShareEnabled`: `"off"` and `"-"` mean not shared, anything else means
shared. -/
def isShareEnabled (val : String) : Bool :=
  val != "off" && val != "-"

/-- `parseDatasetFields`: convert one 7-field line into a `Dataset`. -/
def parseDatasetFields (fields : List String) : Except String Dataset := do
  let f := fun i => fields.getD i ""
  let used ← reqSome (parseUint64 (f 1)) "invalid used"
  let avail ← reqSome (parseUint64 (f 2)) "invalid available"
  let ref ← reqSome (parseUint64 (f 3)) "invalid referenced"
  .ok { Name := f 0, Pool := extractPool (f 0), Used := used,
        Available := avail, Referenced := ref, Kind := f 4,
        ShareNFS := isShareEnabled (f 5), ShareSMB := isShareEnabled (f 6) }

/-- The per-line loop of `parseDatasets`: exactly 7 tab-separated fields per
non-empty line, whole-call failure otherwise. -/
def parseDatasetLines : List String → Except String (List Dataset)
  | [] => .ok []
  | line :: rest =>
    if line = "" then parseDatasetLines rest
    else
      let fields := splitStr '\t' line
      if fields.length = 7 then do
        let d ← parseDatasetFields fields
        let ds ← parseDatasetLines rest
        .ok (d :: ds)
      else .error "expected 7 fields"

/-- `parseDatasets`: parse `zfs list -Hp` output. -/
def parseDatasets (data : String) : Except String (List Dataset) :=
  let trimmed := goTrimSpace data
  if trimmed = "" then .ok []
  else parseDatasetLines (splitStr '\n' trimmed)

/-- A pool field list with a failing numeric conversion (size, allocated or
free not an unsigned integer; fragmentation neither `-` nor an unsigned
integer; dedup not a float). -/
def poolFieldsBad (fields : List String) : Bool :=
  (parseUint64 (fields.getD 1 "")).isNone || (parseUint64 (fields.getD 2 "")).isNone ||
  (parseUint64 (fields.getD 3 "")).isNone ||
  ((fields.getD 4 "" != "-") && (parseUint64 (fields.getD 4 "")).isNone) ||
  (parseGoFloat (fields.getD 5 "")).isNone

/-- A non-empty pool line that is malformed: wrong tab-separated field
count, or a failing field conversion. -/
def poolLineBad (line : String) : Bool :=
  line != "" &&
    ((splitStr '\t' line).length != 8 || poolFieldsBad (splitStr '\t' line))

/-- A dataset field list with a failing numeric conversion (used, available
or referenced not an unsigned integer). -/
def datasetFieldsBad (fields : List String) : Bool :=
  (parseUint64 (fields.getD 1 "")).isNone || (parseUint64 (fields.getD 2 "")).isNone ||
  (parseUint64 (fields.getD 3 "")).isNone

/-- A non-empty dataset line that is malformed: wrong tab-separated field
count, or a failing field conversion. -/
def datasetLineBad (line : String) : Bool :=
  line != "" &&
    ((splitStr '\t' line).length != 7 || datasetFieldsBad (splitStr '\t' line))

/-! ## Scan-status parsing (`pkg/zfs/scan.go`) -/

/-- Scan state of one pool (Go struct `ScanStatus`).  `Progress` models the
Go `float64` exactly as a rational (it is always finite: a quotient of a
matched decimal percentage by 100, or 0). -/
structure ScanStatus where
  Pool : String
  Scrub : Bool
  Resilver : Bool
  Progress : ℚ
deriving DecidableEq, Repr

/-- The two active-scan kinds matched by `scanActiveRe`'s alternation. -/
inductive ScanKind where
  | scrub
  | resilver
deriving DecidableEq, Repr

/-- `poolNameRe.FindStringSubmatch`: the regex `^\s*pool:\s+(\S+)` on a line.
Returns the captured pool name: the maximal run of non-space characters
after `pool:` and at least one space, the line having only `\s` characters
before `pool:`. -/
def poolHeaderName (line : String) : Option String :=
  match stripLit "pool:".data (line.data.dropWhile isSpaceRE) with
  | none => none
  | some rest =>
    if (rest.takeWhile isSpaceRE).isEmpty then none
    else
      let name := (rest.dropWhile isSpaceRE).takeWhile (fun c => !isSpaceRE c)
      if name.isEmpty then none else some (String.mk name)

/-- `scanActiveRe.FindStringSubmatch`: the regex
`^\s*scan:\s+(scrub|resilver) in progress`, returning the matched kind. -/
def scanActiveKind (line : String) : Option ScanKind :=
  match stripLit "scan:".data (line.data.dropWhile isSpaceRE) with
  | none => none
  | some rest =>
    if (rest.takeWhile isSpaceRE).isEmpty then none
    else
      let r2 := rest.dropWhile isSpaceRE
      match stripLit "scrub in progress".data r2 with
      | some _ => some .scrub
      | none =>
        match stripLit "resilver in progress".data r2 with
        | some _ => some .resilver
        | none => none

/-- `strings.Contains(line, "scan:")`. -/
def hasScanToken (line : String) : Bool :=
  containsSub "scan:".data line.data

/-- One attempt of `progressRe` (`(\d+\.?\d*)%\s+done`) anchored at the
start of `cs`: digits, an optional fraction, `%`, at least one space,
`done`.  Returns the captured percentage as an exact rational (Go parses
the capture with `strconv.ParseFloat`, which cannot fail on it). -/
def pctAt (cs : List Char) : Option ℚ :=
  let d1 := cs.takeWhile Char.isDigit
  if d1.isEmpty then none
  else
    let r1 := cs.dropWhile Char.isDigit
    let d2 := if r1.head? = some '.' then r1.tail.takeWhile Char.isDigit else []
    let r2 := if r1.head? = some '.' then r1.tail.dropWhile Char.isDigit else r1
    if r2.head? = some '%' then
      let r3 := r2.tail
      if (r3.takeWhile isSpaceRE).isEmpty then none
      else if (stripLit "done".data (r3.dropWhile isSpaceRE)).isSome then
        some ((digitsToNat (d1 ++ d2) : ℚ) / (10 : ℚ) ^ d2.length)
      else none
    else none

/-- `progressRe.FindStringSubmatch`: leftmost match of the percentage
pattern in a line. -/
def findPct : List Char → Option ℚ
  | [] => none
  | c :: cs =>
    match pctAt (c :: cs) with
    | some q => some q
    | none => findPct cs

/-- `newActiveScan`: a `ScanStatus` for an active scrub or resilver
(progress initialised to 0). -/
def newActiveScan (pool : String) (k : ScanKind) : ScanStatus :=
  match k with
  | .scrub => ⟨pool, true, false, 0⟩
  | .resilver => ⟨pool, false, true, 0⟩

/-- `tryParseProgress`: if the most recent status is an active scan for the
current pool whose progress is still 0, and the line matches the percentage
pattern, set that status's progress to the percentage divided by 100 (the Go
code mutates the slice element in place; here the last element is
replaced). -/
def tryParseProgress (statuses : List ScanStatus) (currentPool : String) (line : String) :
    List ScanStatus :=
  match statuses.getLast? with
  | none => statuses
  | some last =>
    if last.Pool ≠ currentPool ∨ (last.Scrub = false ∧ last.Resilver = false) ∨
        last.Progress ≠ 0 then statuses
    else
      match findPct line.data with
      | some pct => statuses.dropLast ++ [{ last with Progress := pct / 100 }]
      | none => statuses

/-- The loop state of `parseScanStatuses`: the emitted statuses, the current
pool (`""` before the first header) and whether the current pool has seen a
`scan:` line. -/
structure ScanParseState where
  statuses : List ScanStatus
  currentPool : String
  scanSeen : Bool
deriving DecidableEq, Repr

/-- One iteration of the line loop of `parseScanStatuses`. -/
def scanStep (st : ScanParseState) (line : String) : ScanParseState :=
  match poolHeaderName line with
  | some name =>
    let sts :=
      if st.currentPool ≠ "" ∧ st.scanSeen = false then
        st.statuses ++ [⟨st.currentPool, false, false, 0⟩]
      else st.statuses
    ⟨sts, name, false⟩
  | none =>
    if st.currentPool = "" then st
    else
      match scanActiveKind line with
      | some k => ⟨st.statuses ++ [newActiveScan st.currentPool k], st.currentPool, true⟩
      | none =>
        if hasScanToken line then
          ⟨st.statuses ++ [⟨st.currentPool, false, false, 0⟩], st.currentPool, true⟩
        else
          ⟨tryParseProgress st.statuses st.currentPool line, st.currentPool, st.scanSeen⟩

/-- Close out the last pool at end of input, as a new header would. -/
def scanFinish (st : ScanParseState) : List ScanStatus :=
  if st.currentPool ≠ "" ∧ st.scanSeen = false then
    st.statuses ++ [⟨st.currentPool, false, false, 0⟩]
  else st.statuses

/-- The line-level scan parser: fold the loop body over the lines, then
close out the last pool. -/
def parseScanLines (lines : List String) : List ScanStatus :=
  scanFinish (lines.foldl scanStep ⟨[], "", false⟩)

/-- `parseScanStatuses`: parse `zpool status` output.  Whitespace-only input
yields no statuses; otherwise the input is split on newlines and scanned. -/
def parseScanStatuses (data : String) : List ScanStatus :=
  if goTrimSpace data = "" then []
  else parseScanLines (splitStr '\n' data)

/-! ## Service checking (`pkg/host/service.go`) -/

/-- Health of a systemd service (Go struct `ServiceStatus` of package
`host`). -/
structure ServiceStatus where
  Name : String
  Active : Bool
deriving DecidableEq, Repr

/-- Outcome of one `systemctl is-active <unit>` invocation through the
injected runner: captured stdout plus whether the command returned an
error (non-zero exit). -/
structure ProbeResult where
  out : String
  failed : Bool
deriving DecidableEq, Repr

/-- `checkServiceUnits`: try each candidate unit in order with the activity
probe.  A failed probe with no (trimmed) output means the unit does not
exist and the next candidate is tried; a failed probe with output resolves
the key as not active; a successful probe resolves the key as active
exactly when the trimmed output is `"active"`.  `none` models Go's
`(zero, false)` return for "no unit found". -/
def checkServiceUnits (probe : String → ProbeResult) (key : String) :
    List String → Option ServiceStatus
  | [] => none
  | unit :: rest =>
    let r := probe unit
    if r.failed then
      if goTrimSpace r.out = "" then checkServiceUnits probe key rest
      else some ⟨key, false⟩
    else some ⟨key, goTrimSpace r.out = "active"⟩

/-! ## The collector (`collector/collector.go`) -/

/-- One emitted Prometheus sample, one constructor per metric descriptor of
`initDescriptors`, carrying its label values and gauge value.  Values that
are converted from Go integers or booleans are exact rationals; the two
`float64`-typed pool values keep their `GoFloat` form. -/
inductive Metric where
  | up (v : ℚ)
  | scrapeDuration (v : ℚ)
  | poolSize (pool : String) (v : ℚ)
  | poolAllocated (pool : String) (v : ℚ)
  | poolFree (pool : String) (v : ℚ)
  | poolFragmentation (pool : String) (v : GoFloat)
  | poolDedup (pool : String) (v : GoFloat)
  | poolReadOnly (pool : String) (v : ℚ)
  | poolHealth (pool state : String) (v : ℚ)
  | poolScrubActive (pool : String) (v : ℚ)
  | poolResilverActive (pool : String) (v : ℚ)
  | poolScanProgress (pool : String) (v : ℚ)
  | datasetUsed (name kind pool : String) (v : ℚ)
  | datasetAvailable (name kind pool : String) (v : ℚ)
  | datasetReferenced (name kind pool : String) (v : ℚ)
  | datasetShareNFS (name kind pool : String) (v : ℚ)
  | datasetShareSMB (name kind pool : String) (v : ℚ)
  | serviceUp (name : String) (v : ℚ)
deriving DecidableEq, Repr

/-- `healthStates` of the collector: all possible pool health states. -/
def healthStates : List String :=
  ["online", "degraded", "faulted", "offline", "removed", "unavail"]

/-- The metrics `collectPoolMetrics` emits for one pool: the six gauges plus
the health state-set (one sample per possible state). -/
def poolMetricsOf (p : Pool) : List Metric :=
  [.poolSize p.Name (p.Size : ℚ),
   .poolAllocated p.Name (p.Allocated : ℚ),
   .poolFree p.Name (p.Free : ℚ),
   .poolFragmentation p.Name p.Fragmentation,
   .poolDedup p.Name p.Dedup,
   .poolReadOnly p.Name (if p.ReadOnly then 1 else 0)] ++
  healthStates.map (fun state =>
    .poolHealth p.Name state (if state = goToLower p.Health then 1 else 0))

/-- `collectPoolMetrics` over a pool list. -/
def poolMetrics (pools : List Pool) : List Metric :=
  pools.flatMap poolMetricsOf

/-- `collectScanMetrics` over a scan-status list. -/
def scanMetrics (scans : List ScanStatus) : List Metric :=
  scans.flatMap (fun s =>
    [.poolScrubActive s.Pool (if s.Scrub then 1 else 0),
     .poolResilverActive s.Pool (if s.Resilver then 1 else 0),
     .poolScanProgress s.Pool s.Progress])

/-- `collectDatasetMetrics` over a dataset list. -/
def datasetMetrics (datasets : List Dataset) : List Metric :=
  datasets.flatMap (fun d =>
    [.datasetUsed d.Name d.Kind d.Pool (d.Used : ℚ),
     .datasetAvailable d.Name d.Kind d.Pool (d.Available : ℚ),
     .datasetReferenced d.Name d.Kind d.Pool (d.Referenced : ℚ),
     .datasetShareNFS d.Name d.Kind d.Pool (if d.ShareNFS then 1 else 0),
     .datasetShareSMB d.Name d.Kind d.Pool (if d.ShareSMB then 1 else 0)])

/-- `collectServiceMetrics` over a service-status list. -/
def serviceMetrics (svcs : List ServiceStatus) : List Metric :=
  svcs.flatMap (fun s => [.serviceUp s.Name (if s.Active then 1 else 0)])

/-- Results of `fetchOptional`: the three optional fetches each land in
their own result/error slot (the goroutines write disjoint fields and the
wait-group joins them, so the outcome is this record). -/
structure OptionalResults where
  datasets : Except String (List Dataset)
  scans : Except String (List ScanStatus)
  svcs : Except String (List ServiceStatus)

/-- An observable event of one `Collect` call: either a fetch being issued
or a metric being sent on the channel.  The three optional-fetch events are
concurrent in the Go code; they are recorded here in the textual order of
`fetchOptional`, which is one of their linearisations (the claims only use
their presence or absence). -/
inductive Event where
  | fetchDatasets
  | fetchScans
  | fetchServices
  | emit (m : Metric)
deriving DecidableEq, Repr

/-- `Collector.Collect`, as the sequence of its observable events.
`dur` is the measured scrape duration and `poolRes` the outcome of the
mandatory `GetPools` fetch (which the code issues first, before any event
modelled here).  On pool failure the call emits `up 0` and returns without
invoking `fetchOptional`; on success it emits `up 1` and the pool metrics,
issues the three optional fetches, and emits each optional source's metrics
unless that source failed. -/
def collect (dur : ℚ) (poolRes : Except String (List Pool)) (opt : OptionalResults) :
    List Event :=
  Event.emit (.scrapeDuration dur) ::
  match poolRes with
  | .error _ => [Event.emit (.up 0)]
  | .ok pools =>
    Event.emit (.up 1) ::
    (poolMetrics pools).map Event.emit ++
    [Event.fetchDatasets, Event.fetchScans, Event.fetchServices] ++
    (match opt.datasets with
     | .error _ => []
     | .ok ds => (datasetMetrics ds).map Event.emit) ++
    (match opt.scans with
     | .error _ => []
     | .ok scans => (scanMetrics scans).map Event.emit) ++
    (match opt.svcs with
     | .error _ => []
     | .ok svcs => (serviceMetrics svcs).map Event.emit)

/-- Is this event an emission of the overall-up sample? -/
def isUpEvent : Event → Bool
  | .emit (.up _) => true
  | _ => false

/-- Is this event an emission of the scrape-duration sample? -/
def isDurationEvent : Event → Bool
  | .emit (.scrapeDuration _) => true
  | _ => false

/-- Is this event the issuing of one of the three optional fetches? -/
def isFetchEvent : Event → Bool
  | .fetchDatasets => true
  | .fetchScans => true
  | .fetchServices => true
  | _ => false

/-- `Except.isOk` as a plain function. -/
def exceptOk {ε α : Type} : Except ε α → Bool
  | .ok _ => true
  | .error _ => false

/-! ## Specification-side views of the scan input

The following definitions are not part of the embedded program; they give
the section structure of a `zpool status` text, against which the per-pool
emission behaviour of `parseScanLines` is stated. -/

/-- A line that is not a `pool:` header. -/
def notHeader (line : String) : Bool :=
  (poolHeaderName line).isNone

/-- Decompose the input lines into pool sections: each `pool:` header opens
a section `(name, body)` whose body runs to the next header or the end of
input; lines before the first header belong to no section. -/
def poolSections : List String → List (String × List String)
  | [] => []
  | l :: ls =>
    match poolHeaderName l with
    | some p => (p, ls.takeWhile notHeader) :: poolSections (ls.dropWhile notHeader)
    | none => poolSections ls
termination_by lines => lines.length
decreasing_by
  · exact Nat.lt_succ_of_le (List.Sublist.length_le (List.dropWhile_sublist _))
  · simp

/-- The record one body line containing `scan:` emits for the current
pool: an active record for a `scrub`/`resilver` in-progress line, the
"no active scan" record for any other `scan:` line. -/
def lineRecord (cur : String) (l : String) : ScanStatus :=
  match scanActiveKind l with
  | some k => newActiveScan cur k
  | none => ⟨cur, false, false, 0⟩

/-- Forget the progress of active records (progress is settled separately,
see the C4 theorems).  Inactive records are untouched, so an inactive
record equal to its image under this map is pinned exactly. -/
def eraseActiveProgress (r : ScanStatus) : ScanStatus :=
  if r.Scrub || r.Resilver then { r with Progress := 0 } else r

/-- The records one section produces, up to active-record progress: one
`lineRecord` per body line containing `scan:`, or the single close-out
record `⟨pool, false, false, 0⟩` if there is no such line. -/
def sectionRecords (s : String × List String) : List ScanStatus :=
  let emits := (s.2.filter hasScanToken).map (lineRecord s.1)
  if emits.isEmpty then [⟨s.1, false, false, 0⟩] else emits

/-- The records still to be emitted from `lines` when the loop state is
`(cur, seen)`, up to active-record progress: the remainder of the current
section (if any) followed by the full sections after it. -/
def sectionRestRecords (cur : String) (seen : Bool) (lines : List String) : List ScanStatus :=
  if cur = "" then (poolSections lines).flatMap sectionRecords
  else
    (let emits := ((lines.takeWhile notHeader).filter hasScanToken).map (lineRecord cur)
     if seen then emits
     else if emits.isEmpty then [⟨cur, false, false, 0⟩] else emits) ++
    (poolSections (lines.dropWhile notHeader)).flatMap sectionRecords

/-- The progress value the parser leaves on an active-scan record whose
progress starts at 0, after scanning `body`: the first matched percentage
that is non-zero, divided by 100 (a matched `0%` writes 0 back and leaves
the record open for later matches), or 0 if no non-zero match occurs. -/
def firstPct : List String → ℚ
  | [] => 0
  | b :: bs =>
    match findPct b.data with
    | some pct => if pct ≠ 0 then pct / 100 else firstPct bs
    | none => firstPct bs

/-- The record invariant of the scan parser: scrub and resilver are never
both set, progress is non-negative, and an inactive record has progress 0. -/
def scanInv (r : ScanStatus) : Prop :=
  ¬(r.Scrub = true ∧ r.Resilver = true) ∧ 0 ≤ r.Progress ∧
    (r.Scrub = false → r.Resilver = false → r.Progress = 0)

/-- Is this metric the overall-up sample? -/
def isUpMetric : Metric → Bool
  | .up _ => true
  | _ => false

/-- Is this metric the scrape-duration sample? -/
def isDurMetric : Metric → Bool
  | .scrapeDuration _ => true
  | _ => false

/-! ## Helper lemmas -/

theorem containsSub_of_stripLit {pat cs : List Char} (h : (stripLit pat cs).isSome = true) :
    containsSub pat cs = true := by
  cases cs <;> simp [containsSub, h]

theorem containsSub_append_left (pat : List Char) (pre : List Char) {cs : List Char}
    (h : containsSub pat cs = true) : containsSub pat (pre ++ cs) = true := by
  induction pre with
  | nil => simpa using h
  | cons c pre ih => simp [containsSub, ih]

theorem stripLit_cons {l : Char} {ls cs r : List Char} (h : stripLit (l :: ls) cs = some r) :
    ∃ cs', cs = l :: cs' ∧ stripLit ls cs' = some r := by
  cases cs with
  | nil => simp [stripLit] at h
  | cons c cs' =>
    by_cases hc : c = l
    · subst hc
      refine ⟨cs', rfl, ?_⟩
      simpa [stripLit] using h
    · simp [stripLit, hc] at h

/-- A line matched by the active-scan regex contains the substring `scan:`,
so the `strings.Contains` fallback can never fire on the same line. -/
theorem hasScanToken_of_scanActive {line : String} {k : ScanKind}
    (h : scanActiveKind line = some k) : hasScanToken line = true := by
  unfold scanActiveKind at h
  cases hs : stripLit "scan:".data (line.data.dropWhile isSpaceRE) with
  | none => rw [hs] at h; exact absurd h (by simp)
  | some rest =>
    unfold hasScanToken
    rw [← List.takeWhile_append_dropWhile (p := isSpaceRE) (l := line.data)]
    exact containsSub_append_left _ _ (containsSub_of_stripLit (by rw [hs]; rfl))

/-- A line matched by the active-scan regex is not a pool header (it starts,
after whitespace, with `scan:`, not `pool:`). -/
theorem poolHeaderName_eq_none_of_scanActive {line : String} {k : ScanKind}
    (h : scanActiveKind line = some k) : poolHeaderName line = none := by
  unfold scanActiveKind at h
  cases hs : stripLit "scan:".data (line.data.dropWhile isSpaceRE) with
  | none => rw [hs] at h; exact absurd h (by simp)
  | some rest =>
    have hd : "scan:".data = 's' :: "can:".data := rfl
    rw [hd] at hs
    obtain ⟨cs', hcs, -⟩ := stripLit_cons hs
    unfold poolHeaderName
    rw [hcs]
    have : stripLit "pool:".data ('s' :: cs') = none := by
      have hp : "pool:".data = 'p' :: "ool:".data := rfl
      rw [hp]
      simp [stripLit]
    rw [this]

theorem eraseActiveProgress_noScan (p : String) :
    eraseActiveProgress ⟨p, false, false, 0⟩ = ⟨p, false, false, 0⟩ := rfl

theorem eraseActiveProgress_newActiveScan (p : String) (k : ScanKind) :
    eraseActiveProgress (newActiveScan p k) = newActiveScan p k := by
  cases k <;> rfl

/-- `tryParseProgress` only ever rewrites the progress of the last record,
and only when that record is active, so the progress-erased view of the
emitted records never changes. -/
theorem tryParseProgress_map_erase (sts : List ScanStatus) (cur line : String) :
    (tryParseProgress sts cur line).map eraseActiveProgress =
      sts.map eraseActiveProgress := by
  unfold tryParseProgress
  cases hl : sts.getLast? with
  | none => rfl
  | some last =>
    obtain ⟨init, rfl⟩ := List.getLast?_eq_some_iff.mp hl
    dsimp only
    by_cases hg : last.Pool ≠ cur ∨ (last.Scrub = false ∧ last.Resilver = false) ∨
        last.Progress ≠ 0
    · simp [hg]
    · rw [if_neg hg]
      cases hf : findPct line.data with
      | none => rfl
      | some pct =>
        dsimp only
        rw [List.dropLast_concat]
        push_neg at hg
        obtain ⟨-, hmid, -⟩ := hg
        have hact : (last.Scrub || last.Resilver) = true := by
          cases hS : last.Scrub
          · have hR := hmid hS
            cases hR2 : last.Resilver
            · exact absurd hR2 hR
            · simp [hR2]
          · simp [hS]
        simp [eraseActiveProgress, hact]

/-- Pool names captured by the header regex are non-empty (`\S+` needs at
least one character). -/
theorem poolHeaderName_ne_empty {line p : String} (h : poolHeaderName line = some p) :
    p ≠ "" := by
  unfold poolHeaderName at h
  cases hs : stripLit "pool:".data (line.data.dropWhile isSpaceRE) with
  | none => rw [hs] at h; exact absurd h (by simp)
  | some rest =>
    rw [hs] at h
    by_cases he : (rest.takeWhile isSpaceRE).isEmpty
    · simp [he] at h
    · simp only [he, Bool.false_eq_true, if_false] at h
      by_cases hn : ((rest.dropWhile isSpaceRE).takeWhile fun c => !isSpaceRE c).isEmpty
      · simp [hn] at h
      · simp only [hn, Bool.false_eq_true, if_false, Option.some.injEq] at h
        subst h
        intro hcon
        have : ((rest.dropWhile isSpaceRE).takeWhile fun c => !isSpaceRE c) = [] := by
          have := congrArg String.data hcon
          simpa using this
        rw [this] at hn
        simp at hn

theorem newActiveScan_pool (cur : String) (k : ScanKind) : (newActiveScan cur k).Pool = cur := by
  cases k <;> rfl

theorem sectionRestRecords_empty (seen : Bool) (lines : List String) :
    sectionRestRecords "" seen lines = (poolSections lines).flatMap sectionRecords := by
  simp [sectionRestRecords]

theorem sectionRestRecords_eq_of_ne {cur : String} (hc : cur ≠ "") (seen : Bool)
    (lines : List String) :
    sectionRestRecords cur seen lines =
      (let emits := ((lines.takeWhile notHeader).filter hasScanToken).map (lineRecord cur)
       if seen then emits
       else if emits.isEmpty then [⟨cur, false, false, 0⟩] else emits) ++
      (poolSections (lines.dropWhile notHeader)).flatMap sectionRecords := by
  simp [sectionRestRecords, hc]

theorem poolSections_cons_header {l p : String} (ls : List String)
    (hh : poolHeaderName l = some p) :
    poolSections (l :: ls) =
      (p, ls.takeWhile notHeader) :: poolSections (ls.dropWhile notHeader) := by
  rw [poolSections.eq_def]
  simp [hh]

theorem poolSections_cons_skip {l : String} (ls : List String)
    (hh : poolHeaderName l = none) :
    poolSections (l :: ls) = poolSections ls := by
  rw [poolSections.eq_def]
  simp [hh]

/-- The records `parseScanLines` emits, up to active-record progress,
stated for the general loop state: the records already emitted, then the
remaining per-section records described by `sectionRestRecords`. -/
theorem scan_run_records (lines : List String) :
    ∀ (sts : List ScanStatus) (cur : String) (seen : Bool),
      (scanFinish (lines.foldl scanStep ⟨sts, cur, seen⟩)).map eraseActiveProgress =
        sts.map eraseActiveProgress ++ sectionRestRecords cur seen lines := by
  induction lines with
  | nil =>
    intro sts cur seen
    by_cases hc : cur = ""
    · subst hc
      simp [scanFinish, sectionRestRecords, poolSections]
    · cases seen with
      | false =>
        simp [scanFinish, sectionRestRecords, hc, poolSections, eraseActiveProgress]
      | true => simp [scanFinish, sectionRestRecords, hc, poolSections]
  | cons l ls ih =>
    intro sts cur seen
    rw [List.foldl_cons]
    cases hh : poolHeaderName l with
    | some p =>
      have hp : p ≠ "" := poolHeaderName_ne_empty hh
      have hnh : notHeader l = false := by simp [notHeader, hh]
      simp only [scanStep, hh]
      by_cases hc : cur = ""
      · subst hc
        rw [if_neg (by simp), ih, sectionRestRecords_empty, poolSections_cons_header ls hh,
          List.flatMap_cons, sectionRestRecords_eq_of_ne hp]
        simp [sectionRecords]
      · cases seen with
        | false =>
          rw [if_pos ⟨hc, rfl⟩, ih, sectionRestRecords_eq_of_ne hp,
            sectionRestRecords_eq_of_ne hc]
          simp only [List.takeWhile_cons, hnh, Bool.false_eq_true, if_false,
            List.filter_nil, List.map_nil, List.dropWhile_cons]
          rw [poolSections_cons_header ls hh, List.flatMap_cons]
          simp [sectionRecords, eraseActiveProgress]
        | true =>
          rw [if_neg (by simp), ih, sectionRestRecords_eq_of_ne hp,
            sectionRestRecords_eq_of_ne hc]
          simp only [List.takeWhile_cons, hnh, Bool.false_eq_true, if_false,
            List.filter_nil, List.map_nil, List.dropWhile_cons]
          rw [poolSections_cons_header ls hh, List.flatMap_cons]
          simp [sectionRecords]
    | none =>
      have hnh : notHeader l = true := by simp [notHeader, hh]
      simp only [scanStep, hh]
      by_cases hc : cur = ""
      · subst hc
        rw [if_pos rfl, ih, sectionRestRecords_empty, sectionRestRecords_empty,
          poolSections_cons_skip ls hh]
      · rw [if_neg hc]
        cases ha : scanActiveKind l with
        | some k =>
          have hscan : hasScanToken l = true := hasScanToken_of_scanActive ha
          dsimp only
          rw [ih, sectionRestRecords_eq_of_ne hc, sectionRestRecords_eq_of_ne hc]
          simp only [List.takeWhile_cons, hnh, if_true, List.dropWhile_cons,
            List.filter_cons, hscan]
          cases seen with
          | false => simp [lineRecord, ha, eraseActiveProgress_newActiveScan]
          | true => simp [lineRecord, ha, eraseActiveProgress_newActiveScan]
        | none =>
          dsimp only
          by_cases hscan : hasScanToken l = true
          · rw [if_pos hscan, ih, sectionRestRecords_eq_of_ne hc,
              sectionRestRecords_eq_of_ne hc]
            simp only [List.takeWhile_cons, hnh, if_true, List.dropWhile_cons,
              List.filter_cons, hscan]
            cases seen with
            | false => simp [lineRecord, ha, eraseActiveProgress]
            | true => simp [lineRecord, ha, eraseActiveProgress]
          · rw [if_neg hscan, ih, tryParseProgress_map_erase,
              sectionRestRecords_eq_of_ne hc, sectionRestRecords_eq_of_ne hc]
            simp only [List.takeWhile_cons, hnh, if_true, List.dropWhile_cons,
              List.filter_cons, hscan]
            simp

theorem scanActiveKind_eq_none_of_not_hasScanToken {line : String}
    (h : hasScanToken line = false) : scanActiveKind line = none := by
  cases ha : scanActiveKind line with
  | none => rfl
  | some k => rw [hasScanToken_of_scanActive ha] at h; exact absurd h (by simp)

/-- Once the last record's progress is non-zero, `tryParseProgress` leaves
the statuses untouched. -/
theorem tryParseProgress_of_progress_ne (sts : List ScanStatus) (rec : ScanStatus)
    (cur line : String) (hprog : rec.Progress ≠ 0) :
    tryParseProgress (sts ++ [rec]) cur line = sts ++ [rec] := by
  unfold tryParseProgress
  rw [List.getLast?_concat]
  dsimp only
  rw [if_pos (Or.inr (Or.inr hprog))]

/-- While the last record is an active scan for the current pool with
progress 0, `tryParseProgress` rewrites its progress from any line matching
the percentage pattern. -/
theorem tryParseProgress_concat_active (sts : List ScanStatus) (rec : ScanStatus)
    (cur line : String) (hpool : rec.Pool = cur)
    (hact : rec.Scrub = true ∨ rec.Resilver = true) (hprog : rec.Progress = 0) :
    tryParseProgress (sts ++ [rec]) cur line =
      match findPct line.data with
      | some pct => sts ++ [{ rec with Progress := pct / 100 }]
      | none => sts ++ [rec] := by
  unfold tryParseProgress
  rw [List.getLast?_concat]
  dsimp only
  have hguard : ¬(rec.Pool ≠ cur ∨ (rec.Scrub = false ∧ rec.Resilver = false) ∨
      rec.Progress ≠ 0) := by
    push_neg
    refine ⟨hpool, fun hS => ?_, hprog⟩
    rcases hact with h | h
    · rw [h] at hS; exact absurd hS (by simp)
    · simp [h]
  rw [if_neg hguard]
  cases hf : findPct line.data <;> simp [hf, List.dropLast_concat]

/-- The non-header, non-scan lines of a section leave an active record with
non-zero progress unchanged: after the first non-zero percentage no later
line changes the record. -/
theorem progress_run_done (body : List String) :
    ∀ (sts : List ScanStatus) (cur : String) (rec : ScanStatus),
      cur ≠ "" → rec.Progress ≠ 0 →
      (∀ b ∈ body, poolHeaderName b = none ∧ hasScanToken b = false) →
      body.foldl scanStep ⟨sts ++ [rec], cur, true⟩ = ⟨sts ++ [rec], cur, true⟩ := by
  induction body with
  | nil => intro _ _ _ _ _ _; rfl
  | cons b bs ih =>
    intro sts cur rec hcur hprog hbody
    obtain ⟨hbh, hbs⟩ := hbody b (by simp)
    rw [List.foldl_cons]
    have hstep : scanStep ⟨sts ++ [rec], cur, true⟩ b = ⟨sts ++ [rec], cur, true⟩ := by
      simp only [scanStep, hbh, scanActiveKind_eq_none_of_not_hasScanToken hbs, hbs]
      rw [if_neg hcur]
      simp [tryParseProgress_of_progress_ne sts rec cur b hprog]
    rw [hstep]
    exact ih sts cur rec hcur hprog (fun b hb => hbody b (by simp [hb]))

/-- The non-header, non-scan lines of a section, run from an active record
with progress 0: the record ends at `firstPct body` and nothing else
changes. -/
theorem progress_run (body : List String) :
    ∀ (sts : List ScanStatus) (cur : String) (rec : ScanStatus),
      cur ≠ "" → rec.Pool = cur → (rec.Scrub = true ∨ rec.Resilver = true) →
      rec.Progress = 0 →
      (∀ b ∈ body, poolHeaderName b = none ∧ hasScanToken b = false) →
      body.foldl scanStep ⟨sts ++ [rec], cur, true⟩ =
        ⟨sts ++ [{ rec with Progress := firstPct body }], cur, true⟩ := by
  induction body with
  | nil =>
    intro sts cur rec _ _ _ hprog _
    obtain ⟨a, b, c, d⟩ := rec
    simp only at hprog
    simp [firstPct, hprog]
  | cons b bs ih =>
    intro sts cur rec hcur hpool hact hprog hbody
    obtain ⟨hbh, hbs⟩ := hbody b (by simp)
    have hrest : ∀ x ∈ bs, poolHeaderName x = none ∧ hasScanToken x = false :=
      fun x hx => hbody x (by simp [hx])
    rw [List.foldl_cons]
    have hstep : scanStep ⟨sts ++ [rec], cur, true⟩ b =
        ⟨tryParseProgress (sts ++ [rec]) cur b, cur, true⟩ := by
      simp only [scanStep, hbh, scanActiveKind_eq_none_of_not_hasScanToken hbs, hbs]
      rw [if_neg hcur]
      simp
    rw [hstep, tryParseProgress_concat_active sts rec cur b hpool hact hprog]
    cases hf : findPct b.data with
    | none =>
      dsimp only
      rw [ih sts cur rec hcur hpool hact hprog hrest]
      simp [firstPct, hf]
    | some pct =>
      dsimp only
      by_cases hz : pct = 0
      · subst hz
        have h0 : ((0 : ℚ) / 100) = 0 := by norm_num
        rw [h0]
        rw [ih sts cur { rec with Progress := (0 : ℚ) } hcur (by simpa using hpool)
          (by simpa using hact) rfl hrest]
        simp [firstPct, hf]
      · have hne : pct / 100 ≠ 0 := div_ne_zero hz (by norm_num)
        rw [progress_run_done bs sts cur { rec with Progress := pct / 100 } hcur hne hrest]
        simp [firstPct, hf, hz]

theorem scanInv_noScan (p : String) : scanInv ⟨p, false, false, 0⟩ :=
  ⟨by simp, le_refl 0, fun _ _ => rfl⟩

theorem scanInv_active (p : String) (k : ScanKind) : scanInv (newActiveScan p k) := by
  cases k <;> exact ⟨by simp [newActiveScan], le_refl 0, by simp [newActiveScan]⟩

theorem pctAt_nonneg {cs : List Char} {q : ℚ} (h : pctAt cs = some q) : 0 ≤ q := by
  simp only [pctAt] at h
  repeat' split at h
  all_goals cases h
  all_goals positivity

theorem findPct_nonneg : ∀ {cs : List Char} {q : ℚ}, findPct cs = some q → 0 ≤ q := by
  intro cs
  induction cs with
  | nil => intro q h; simp [findPct] at h
  | cons c cs ih =>
    intro q h
    unfold findPct at h
    cases hp : pctAt (c :: cs) with
    | some v =>
      rw [hp] at h
      obtain rfl : v = q := by simpa using h
      exact pctAt_nonneg hp
    | none =>
      rw [hp] at h
      exact ih h

theorem tryParseProgress_inv (sts : List ScanStatus) (cur line : String)
    (h : ∀ r ∈ sts, scanInv r) : ∀ r ∈ tryParseProgress sts cur line, scanInv r := by
  unfold tryParseProgress
  cases hl : sts.getLast? with
  | none => exact h
  | some last =>
    obtain ⟨init, rfl⟩ := List.getLast?_eq_some_iff.mp hl
    dsimp only
    by_cases hg : last.Pool ≠ cur ∨ (last.Scrub = false ∧ last.Resilver = false) ∨
        last.Progress ≠ 0
    · rw [if_pos hg]; exact h
    · rw [if_neg hg]
      cases hf : findPct line.data with
      | none => exact h
      | some pct =>
        dsimp only
        rw [List.dropLast_concat]
        intro r hr
        rcases List.mem_append.mp hr with hr | hr
        · exact h r (by simp [hr])
        · have hrq : r = { last with Progress := pct / 100 } := by simpa using hr
          subst hrq
          have hlast := h last (by simp)
          have hnn : 0 ≤ pct / 100 := div_nonneg (findPct_nonneg hf) (by norm_num)
          push_neg at hg
          obtain ⟨-, hmid, -⟩ := hg
          refine ⟨by simpa using hlast.1, hnn, fun hS hR => ?_⟩
          exact absurd (by simpa using hR) (hmid (by simpa using hS))

theorem scanStep_inv (st : ScanParseState) (line : String)
    (h : ∀ r ∈ st.statuses, scanInv r) : ∀ r ∈ (scanStep st line).statuses, scanInv r := by
  unfold scanStep
  cases hh : poolHeaderName line with
  | some p =>
    dsimp only
    by_cases hc : st.currentPool ≠ "" ∧ st.scanSeen = false
    · rw [if_pos hc]
      intro r hr
      rcases List.mem_append.mp hr with hr | hr
      · exact h r hr
      · obtain rfl : r = _ := by simpa using hr
        exact scanInv_noScan _
    · rw [if_neg hc]; exact h
  | none =>
    dsimp only
    by_cases hc : st.currentPool = ""
    · rw [if_pos hc]; exact h
    · rw [if_neg hc]
      cases ha : scanActiveKind line with
      | some k =>
        dsimp only
        intro r hr
        rcases List.mem_append.mp hr with hr | hr
        · exact h r hr
        · obtain rfl : r = _ := by simpa using hr
          exact scanInv_active _ _
      | none =>
        dsimp only
        by_cases hscan : hasScanToken line = true
        · rw [if_pos hscan]
          intro r hr
          rcases List.mem_append.mp hr with hr | hr
          · exact h r hr
          · obtain rfl : r = _ := by simpa using hr
            exact scanInv_noScan _
        · rw [if_neg hscan]
          exact tryParseProgress_inv _ _ _ h

theorem scanFold_inv (lines : List String) :
    ∀ st : ScanParseState, (∀ r ∈ st.statuses, scanInv r) →
      ∀ r ∈ (lines.foldl scanStep st).statuses, scanInv r := by
  induction lines with
  | nil => intro st h; exact h
  | cons l ls ih =>
    intro st h
    rw [List.foldl_cons]
    exact ih _ (scanStep_inv st l h)

theorem scanFinish_inv (st : ScanParseState) (h : ∀ r ∈ st.statuses, scanInv r) :
    ∀ r ∈ scanFinish st, scanInv r := by
  unfold scanFinish
  by_cases hc : st.currentPool ≠ "" ∧ st.scanSeen = false
  · rw [if_pos hc]
    intro r hr
    rcases List.mem_append.mp hr with hr | hr
    · exact h r hr
    · obtain rfl : r = _ := by simpa using hr
      exact scanInv_noScan _
  · rw [if_neg hc]; exact h

theorem parseScanStatuses_inv (data : String) :
    ∀ r ∈ parseScanStatuses data, scanInv r := by
  unfold parseScanStatuses
  by_cases hc : goTrimSpace data = ""
  · simp [hc]
  · rw [if_neg hc]
    exact scanFinish_inv _ (scanFold_inv _ _ (by simp))

theorem isUpEvent_emit (m : Metric) : isUpEvent (.emit m) = isUpMetric m := by
  cases m <;> rfl

theorem isDurationEvent_emit (m : Metric) : isDurationEvent (.emit m) = isDurMetric m := by
  cases m <;> rfl

theorem mem_poolMetrics_not_meta {ps : List Pool} {m : Metric} (hm : m ∈ poolMetrics ps) :
    isUpMetric m = false ∧ isDurMetric m = false := by
  simp only [poolMetrics, List.mem_flatMap] at hm
  obtain ⟨p, -, hm⟩ := hm
  simp only [poolMetricsOf, healthStates, List.mem_append, List.mem_cons,
    List.not_mem_nil, or_false, List.mem_map] at hm
  rcases hm with (rfl | rfl | rfl | rfl | rfl | rfl) | ⟨st, -, rfl⟩ <;> exact ⟨rfl, rfl⟩

theorem mem_datasetMetrics_not_meta {ds : List Dataset} {m : Metric}
    (hm : m ∈ datasetMetrics ds) : isUpMetric m = false ∧ isDurMetric m = false := by
  simp only [datasetMetrics, List.mem_flatMap] at hm
  obtain ⟨d, -, hm⟩ := hm
  simp only [List.mem_cons, List.not_mem_nil, or_false] at hm
  rcases hm with rfl | rfl | rfl | rfl | rfl <;> exact ⟨rfl, rfl⟩

theorem mem_scanMetrics_not_meta {scans : List ScanStatus} {m : Metric}
    (hm : m ∈ scanMetrics scans) : isUpMetric m = false ∧ isDurMetric m = false := by
  simp only [scanMetrics, List.mem_flatMap] at hm
  obtain ⟨s, -, hm⟩ := hm
  simp only [List.mem_cons, List.not_mem_nil, or_false] at hm
  rcases hm with rfl | rfl | rfl <;> exact ⟨rfl, rfl⟩

theorem mem_serviceMetrics_not_meta {svcs : List ServiceStatus} {m : Metric}
    (hm : m ∈ serviceMetrics svcs) : isUpMetric m = false ∧ isDurMetric m = false := by
  simp only [serviceMetrics, List.mem_flatMap] at hm
  obtain ⟨s, -, hm⟩ := hm
  simp only [List.mem_cons, List.not_mem_nil, or_false] at hm
  rcases hm with rfl
  exact ⟨rfl, rfl⟩

theorem countP_emit_eq_zero {p : Event → Bool} {ms : List Metric}
    (h : ∀ m ∈ ms, p (.emit m) = false) : (ms.map Event.emit).countP p = 0 := by
  rw [List.countP_map, List.countP_eq_zero]
  intro m hm
  simp [Function.comp, h m hm]

@[simp]
theorem except_bind_error {ε α β : Type} (e : ε) (f : α → Except ε β) :
    (Except.error e >>= f) = Except.error e := rfl

@[simp]
theorem except_bind_ok {ε α β : Type} (a : α) (f : α → Except ε β) :
    (Except.ok a >>= f : Except ε β) = f a := rfl

/-- A failing field conversion makes `parsePoolFields` fail. -/
theorem parsePoolFields_err {fields : List String} (h : poolFieldsBad fields = true) :
    ∃ e, parsePoolFields fields = .error e := by
  cases h1 : parseUint64 (fields[1]?.getD "") with
  | none => exact ⟨"invalid size", by simp [parsePoolFields, reqSome, h1]⟩
  | some a =>
  cases h2 : parseUint64 (fields[2]?.getD "") with
  | none => exact ⟨"invalid allocated", by simp [parsePoolFields, reqSome, h1, h2]⟩
  | some b =>
  cases h3 : parseUint64 (fields[3]?.getD "") with
  | none => exact ⟨"invalid free", by simp [parsePoolFields, reqSome, h1, h2, h3]⟩
  | some c =>
  by_cases hdash : fields[4]?.getD "" = "-"
  · cases h5 : parseGoFloat (fields[5]?.getD "") with
    | none =>
      exact ⟨"invalid dedup ratio", by simp [parsePoolFields, reqSome, h1, h2, h3, hdash, h5]⟩
    | some dv =>
      exact absurd h (by simp [poolFieldsBad, h1, h2, h3, hdash, h5])
  · cases h4 : parseUint64 (fields[4]?.getD "") with
    | none =>
      exact ⟨"invalid fragmentation",
        by simp [parsePoolFields, reqSome, h1, h2, h3, hdash, h4]⟩
    | some n =>
    cases h5 : parseGoFloat (fields[5]?.getD "") with
    | none =>
      exact ⟨"invalid dedup ratio",
        by simp [parsePoolFields, reqSome, h1, h2, h3, hdash, h4, h5]⟩
    | some dv =>
      exact absurd h (by simp [poolFieldsBad, h1, h2, h3, hdash, h4, h5])

/-- A failing field conversion makes `parseDatasetFields` fail. -/
theorem parseDatasetFields_err {fields : List String} (h : datasetFieldsBad fields = true) :
    ∃ e, parseDatasetFields fields = .error e := by
  cases h1 : parseUint64 (fields[1]?.getD "") with
  | none => exact ⟨"invalid used", by simp [parseDatasetFields, reqSome, h1]⟩
  | some a =>
  cases h2 : parseUint64 (fields[2]?.getD "") with
  | none => exact ⟨"invalid available", by simp [parseDatasetFields, reqSome, h1, h2]⟩
  | some b =>
  cases h3 : parseUint64 (fields[3]?.getD "") with
  | none => exact ⟨"invalid referenced", by simp [parseDatasetFields, reqSome, h1, h2, h3]⟩
  | some c => exact absurd h (by simp [datasetFieldsBad, h1, h2, h3])

/-- One bad line anywhere fails the whole pool-line loop. -/
theorem parsePoolLines_err :
    ∀ lines : List String, lines.any poolLineBad = true →
      ∃ e, parsePoolLines lines = .error e := by
  intro lines
  induction lines with
  | nil => intro h; simp at h
  | cons line rest ih =>
    intro h
    unfold parsePoolLines
    by_cases hempty : line = ""
    · rw [if_pos hempty]
      refine ih ?_
      have hl : poolLineBad line = false := by
        subst hempty; rfl
      simpa [List.any_cons, hl] using h
    · rw [if_neg hempty]
      by_cases hlen : (splitStr '\t' line).length = 8
      · rw [if_pos hlen]
        cases hp : parsePoolFields (splitStr '\t' line) with
        | error e => exact ⟨e, by simp [hp]⟩
        | ok p =>
          have hfb : poolFieldsBad (splitStr '\t' line) = false := by
            by_cases hb : poolFieldsBad (splitStr '\t' line) = true
            · obtain ⟨e, he⟩ := parsePoolFields_err hb
              rw [hp] at he
              exact absurd he (by simp)
            · simpa using hb
          have hl : poolLineBad line = false := by
            simp [poolLineBad, hlen, hfb]
          obtain ⟨e, he⟩ := ih (by simpa [List.any_cons, hl] using h)
          exact ⟨e, by simp [hp, he]⟩
      · rw [if_neg hlen]
        exact ⟨_, rfl⟩

/-- One bad line anywhere fails the whole dataset-line loop. -/
theorem parseDatasetLines_err :
    ∀ lines : List String, lines.any datasetLineBad = true →
      ∃ e, parseDatasetLines lines = .error e := by
  intro lines
  induction lines with
  | nil => intro h; simp at h
  | cons line rest ih =>
    intro h
    unfold parseDatasetLines
    by_cases hempty : line = ""
    · rw [if_pos hempty]
      refine ih ?_
      have hl : datasetLineBad line = false := by
        subst hempty; rfl
      simpa [List.any_cons, hl] using h
    · rw [if_neg hempty]
      by_cases hlen : (splitStr '\t' line).length = 7
      · rw [if_pos hlen]
        cases hp : parseDatasetFields (splitStr '\t' line) with
        | error e => exact ⟨e, by simp [hp]⟩
        | ok p =>
          have hfb : datasetFieldsBad (splitStr '\t' line) = false := by
            by_cases hb : datasetFieldsBad (splitStr '\t' line) = true
            · obtain ⟨e, he⟩ := parseDatasetFields_err hb
              rw [hp] at he
              exact absurd he (by simp)
            · simpa using hb
          have hl : datasetLineBad line = false := by
            simp [datasetLineBad, hlen, hfb]
          obtain ⟨e, he⟩ := ih (by simpa [List.any_cons, hl] using h)
          exact ⟨e, by simp [hp, he]⟩
      · rw [if_neg hlen]
        exact ⟨_, rfl⟩

/-- If trimming leaves nothing, every character of the string was
whitespace. -/
theorem all_space_of_goTrimSpace_empty {s : String} (h : goTrimSpace s = "") :
    ∀ c ∈ s.data, isSpaceGo c = true := by
  unfold goTrimSpace at h
  have h0 : ((s.data.dropWhile isSpaceGo).reverse.dropWhile isSpaceGo).reverse = [] := by
    have hh := congrArg String.data h
    simpa using hh
  rw [List.reverse_eq_nil_iff, List.dropWhile_eq_nil_iff] at h0
  intro c hc
  rw [← List.takeWhile_append_dropWhile (p := isSpaceGo) (l := s.data)] at hc
  rcases List.mem_append.mp hc with hc | hc
  · exact List.mem_takeWhile_imp hc
  · exact h0 c (List.mem_reverse.mpr hc)

/-- Every character of a part produced by `splitChar` occurs in the input. -/
theorem mem_splitChar_subset {sep : Char} : ∀ (cs part : List Char),
    part ∈ splitChar sep cs → ∀ c ∈ part, c ∈ cs := by
  intro cs
  induction cs with
  | nil =>
    intro part hp c hc
    simp only [splitChar, List.mem_singleton] at hp
    subst hp
    simp at hc
  | cons a cs ih =>
    intro part hp c hc
    simp only [splitChar] at hp
    by_cases ha : a = sep
    · rw [if_pos ha] at hp
      rcases List.mem_cons.mp hp with rfl | hp
      · simp at hc
      · exact List.mem_cons_of_mem a (ih part hp c hc)
    · rw [if_neg ha] at hp
      cases hs : splitChar sep cs with
      | nil =>
        rw [hs] at hp
        simp only [List.mem_singleton] at hp
        subst hp
        simp only [List.mem_singleton] at hc
        subst hc
        exact List.mem_cons_self _ _
      | cons h0 t =>
        rw [hs] at hp
        rcases List.mem_cons.mp hp with rfl | hp
        · rcases List.mem_cons.mp hc with rfl | hc
          · exact List.mem_cons_self _ _
          · exact List.mem_cons_of_mem a
              (ih h0 (by rw [hs]; exact List.mem_cons_self _ _) c hc)
        · exact List.mem_cons_of_mem a
            (ih part (by rw [hs]; exact List.mem_cons_of_mem _ hp) c hc)

/-- A line made only of whitespace is not a pool header. -/
theorem poolHeaderName_eq_none_of_all_space {line : String}
    (h : ∀ c ∈ line.data, isSpaceGo c = true) : poolHeaderName line = none := by
  unfold poolHeaderName
  cases hd : line.data.dropWhile isSpaceRE with
  | nil => rfl
  | cons c rest =>
    have hcm : c ∈ line.data :=
      (List.dropWhile_sublist (l := line.data) isSpaceRE).subset (hd ▸ List.mem_cons_self c rest)
    have hsp : isSpaceGo c = true := h c hcm
    have hcp : c ≠ 'p' := by
      intro hcp
      rw [hcp] at hsp
      exact absurd hsp (by decide)
    have hstrip : stripLit "pool:".data (c :: rest) = none := by
      have hpd : "pool:".data = 'p' :: "ool:".data := rfl
      rw [hpd]
      simp [stripLit, hcp]
    rw [hstrip]

/-- With no pool headers at all, there are no sections. -/
theorem poolSections_nil_of_no_header : ∀ lines : List String,
    (∀ l ∈ lines, poolHeaderName l = none) → poolSections lines = [] := by
  intro lines
  induction lines with
  | nil => intro _; rw [poolSections.eq_def]
  | cons l ls ih =>
    intro h
    rw [poolSections_cons_skip ls (h l (by simp))]
    exact ih (fun x hx => h x (by simp [hx]))

/-! ## Claim theorems -/

/-- Claim C1, counterexample.  The claim says `parseScanStatuses` emits
exactly one record per `pool:` header section for every input.  A section
whose body contains two lines with `scan:` yields two records for the one
header, because every `scan:` line emits (the parser does not check that
the section already produced a record). -/
theorem c1_counterexample :
    (parseScanStatuses "pool: a\nscan: none\nscan: none").length = 2 ∧
    (splitStr '\n' "pool: a\nscan: none\nscan: none").countP
      (fun l => (poolHeaderName l).isSome) = 1 := by
  constructor <;> decide

/-- Claim C1, amended.  For every input byte string, the records emitted
by `parseScanStatuses` are exactly, section by section in order: one record
per body line containing `scan:` — the active record of the matched kind
for a `scrub`/`resilver` in-progress line, and the record
`⟨pool, Scrub := false, Resilver := false, Progress := 0⟩` for any other
`scan:` line — or, when the section body has no such line (no scan line or
malformed scan text), exactly the single close-out record
`⟨pool, false, false, 0⟩`; the final section is closed out at end of input
the same way a new header would close it.  The equality is stated up to
erasing active records' progress (their progress is settled by the C4
theorems); by the second conjunct the erasure fixes inactive records, so a
no-scan section's record really is `⟨pool, false, false, 0⟩`.  In
particular a section with at most one `scan:` line yields exactly one
record, but a section with several yields one record per such line. -/
theorem c1_records_per_section (data : String) :
    (parseScanStatuses data).map eraseActiveProgress =
      (poolSections (splitStr '\n' data)).flatMap sectionRecords ∧
    ∀ r : ScanStatus, r.Scrub = false → r.Resilver = false →
      eraseActiveProgress r = r := by
  constructor
  · unfold parseScanStatuses
    by_cases hc : goTrimSpace data = ""
    · rw [if_pos hc]
      have hns : poolSections (splitStr '\n' data) = [] := by
        apply poolSections_nil_of_no_header
        intro l hl
        apply poolHeaderName_eq_none_of_all_space
        intro c hcm
        obtain ⟨part, hpart, rfl⟩ := List.mem_map.mp hl
        exact all_space_of_goTrimSpace_empty hc c
          (mem_splitChar_subset data.data part hpart c (by simpa using hcm))
      rw [hns]
      rfl
    · rw [if_neg hc]
      have h := scan_run_records (splitStr '\n' data) [] "" false
      simpa [parseScanLines, sectionRestRecords_empty] using h
  · intro r hS hR
    simp [eraseActiveProgress, hS, hR]

/-- Claim C2, confirmed.  When the mandatory pool fetch fails, `collect`
emits exactly the scrape-duration sample and a down overall-up sample
(`zfs_up = 0`) — no pool, dataset, scan or service metrics — and none of
the three optional fetches is issued, whatever results they would have
produced. -/
theorem c2_mandatory_failure (dur : ℚ) (msg : String) (opt : OptionalResults) :
    collect dur (.error msg) opt = [.emit (.scrapeDuration dur), .emit (.up 0)] ∧
    (collect dur (.error msg) opt).countP isFetchEvent = 0 := by
  exact ⟨rfl, rfl⟩

/-- Claim C3, confirmed.  When the pool fetch succeeds and exactly one
optional source fails — whichever of the dataset fetch, the scan fetch or
the service check it is — `collect` emits the overall-up sample with value
1, the full pool metrics, no metrics for the failed source, and exactly
the metrics of the other two optional sources that it would emit on full
success: each of the three failure traces differs from the all-success
trace (the last equation) only by that source's block. -/
theorem c3_optional_failure_isolated (dur : ℚ) (pools : List Pool) (msg : String)
    (ds : List Dataset) (scans : List ScanStatus) (svcs : List ServiceStatus) :
    collect dur (.ok pools) ⟨.error msg, .ok scans, .ok svcs⟩ =
      .emit (.scrapeDuration dur) :: .emit (.up 1) ::
        (poolMetrics pools).map Event.emit ++
        [.fetchDatasets, .fetchScans, .fetchServices] ++
        (scanMetrics scans).map Event.emit ++ (serviceMetrics svcs).map Event.emit ∧
    collect dur (.ok pools) ⟨.ok ds, .error msg, .ok svcs⟩ =
      .emit (.scrapeDuration dur) :: .emit (.up 1) ::
        (poolMetrics pools).map Event.emit ++
        [.fetchDatasets, .fetchScans, .fetchServices] ++
        (datasetMetrics ds).map Event.emit ++ (serviceMetrics svcs).map Event.emit ∧
    collect dur (.ok pools) ⟨.ok ds, .ok scans, .error msg⟩ =
      .emit (.scrapeDuration dur) :: .emit (.up 1) ::
        (poolMetrics pools).map Event.emit ++
        [.fetchDatasets, .fetchScans, .fetchServices] ++
        (datasetMetrics ds).map Event.emit ++ (scanMetrics scans).map Event.emit ∧
    collect dur (.ok pools) ⟨.ok ds, .ok scans, .ok svcs⟩ =
      .emit (.scrapeDuration dur) :: .emit (.up 1) ::
        (poolMetrics pools).map Event.emit ++
        [.fetchDatasets, .fetchScans, .fetchServices] ++
        (datasetMetrics ds).map Event.emit ++
        (scanMetrics scans).map Event.emit ++ (serviceMetrics svcs).map Event.emit := by
  refine ⟨?_, ?_, ?_, ?_⟩ <;> simp [collect]

unseal Rat.inv Rat.mul in
/-- Claim C4, counterexample.  The claim says the first line matching the
percentage pattern sets the active record's progress and that no later line
changes it again.  When the first match is `0% done`, the written value is
`0/100 = 0`, which is indistinguishable from "not yet set", so a later
`50% done` line still updates the record to `1/2`. -/
theorem c4_counterexample :
    parseScanStatuses "pool: a\nscan: scrub in progress\n0% done\n50% done" =
      [⟨"a", true, false, (1 : ℚ) / 2⟩] ∧
    findPct "0% done".data = some 0 := by
  constructor <;> decide

/-- Claim C4, amended.  After an active-scan line emits its record,
processing the rest of the section (lines that are neither pool headers nor
`scan:` lines) leaves exactly that record appended, with its progress set
to the first matched percentage that is non-zero divided by 100 (after
which no later line changes it); a matched `0%` writes 0 and leaves the
record open to later matches, and with no non-zero match the progress stays
0. -/
theorem c4_progress_update (st : ScanParseState) (l : String) (body : List String)
    (k : ScanKind) (hl : scanActiveKind l = some k) (hcur : st.currentPool ≠ "")
    (hbody : ∀ b ∈ body, poolHeaderName b = none ∧ hasScanToken b = false) :
    (l :: body).foldl scanStep st =
      ⟨st.statuses ++ [{ newActiveScan st.currentPool k with Progress := firstPct body }],
       st.currentPool, true⟩ := by
  rw [List.foldl_cons]
  have hstep : scanStep st l =
      ⟨st.statuses ++ [newActiveScan st.currentPool k], st.currentPool, true⟩ := by
    simp only [scanStep, poolHeaderName_eq_none_of_scanActive hl, hl]
    rw [if_neg hcur]
  rw [hstep]
  exact progress_run body st.statuses st.currentPool (newActiveScan st.currentPool k) hcur
    (newActiveScan_pool _ _) (by cases k <;> simp [newActiveScan]) (by cases k <;> rfl) hbody

unseal Rat.inv Rat.mul in
/-- Claim C4, witness for the amended theorem at a concrete section. -/
theorem c4_progress_update_witness :
    (["scan: scrub in progress", "  48.36% done"].foldl scanStep ⟨[], "a", false⟩) =
      ⟨[⟨"a", true, false, (1209 : ℚ) / 2500⟩], "a", true⟩ :=
  (c4_progress_update ⟨[], "a", false⟩ "scan: scrub in progress" ["  48.36% done"]
    .scrub (by decide) (by decide) (by decide)).trans (by decide)

/-- Claim C5, counterexample.  The claim says a failed activity probe with
recognisable output has its token parsed, so output `active` with a failure
exit yields an active record.  The code instead returns `Active = false`
for every failed probe with non-empty output, including the token
`active`. -/
theorem c5_counterexample :
    checkServiceUnits (fun _ => ⟨"active", true⟩) "nfs" ["nfs-kernel-server.service"] =
      some ⟨"nfs", false⟩ ∧
    goTrimSpace ((fun (_ : String) => (⟨"active", true⟩ : ProbeResult))
      "nfs-kernel-server.service").out = "active" := by
  constructor <;> decide

/-- Claim C5, amended.  When the activity probe for the first candidate
unit fails but returns non-empty (trimmed) output, the key is resolved (the
unit is not treated as nonexistent, no further candidate is tried) with an
inactive record — regardless of what the output token says; the token is
only parsed on a successful probe. -/
theorem c5_failure_output_inactive (probe : String → ProbeResult) (key unit : String)
    (rest : List String) (hfail : (probe unit).failed = true)
    (hout : goTrimSpace (probe unit).out ≠ "") :
    checkServiceUnits probe key (unit :: rest) = some ⟨key, false⟩ := by
  simp [checkServiceUnits, hfail, hout]

/-- Claim C5, witness for the amended theorem: a probe failing with output
`inactive` resolves the key as found-but-inactive. -/
theorem c5_failure_output_inactive_witness :
    checkServiceUnits (fun _ => ⟨"inactive\n", true⟩) "smb" ["smbd.service"] =
      some ⟨"smb", false⟩ :=
  c5_failure_output_inactive (fun _ => ⟨"inactive\n", true⟩) "smb" "smbd.service" []
    (by decide) (by decide)

unseal Rat.inv Rat.mul in
/-- Claim C6, counterexample.  The claim says every record's progress lies
in `[0, 1]`.  A line reporting a percentage above 100 is divided by 100
without clamping, so `200% done` yields progress 2. -/
theorem c6_counterexample :
    parseScanStatuses "pool: a\nscan: scrub in progress\n200% done" =
      [⟨"a", true, false, 2⟩] ∧
    ¬((2 : ℚ) ≤ 1) := by
  constructor <;> decide

/-- Claim C6, amended.  Every record returned by `parseScanStatuses`
satisfies: scrub and resilver are never both set; progress is non-negative;
and progress is 0 whenever neither scan type is active.  (The upper bound 1
holds only when no line reports a percentage above 100, which real
`zpool status` output never does.) -/
theorem c6_scan_invariants (data : String) (r : ScanStatus)
    (hr : r ∈ parseScanStatuses data) :
    ¬(r.Scrub = true ∧ r.Resilver = true) ∧ 0 ≤ r.Progress ∧
      (r.Scrub = false → r.Resilver = false → r.Progress = 0) :=
  parseScanStatuses_inv data r hr

unseal Rat.inv Rat.mul in
/-- Claim C6, witness at a concrete scrub-in-progress input. -/
theorem c6_scan_invariants_witness :
    ¬((⟨"a", true, false, (1209 : ℚ) / 2500⟩ : ScanStatus).Scrub = true ∧
        (⟨"a", true, false, (1209 : ℚ) / 2500⟩ : ScanStatus).Resilver = true) ∧
      0 ≤ (⟨"a", true, false, (1209 : ℚ) / 2500⟩ : ScanStatus).Progress ∧
      ((⟨"a", true, false, (1209 : ℚ) / 2500⟩ : ScanStatus).Scrub = false →
        (⟨"a", true, false, (1209 : ℚ) / 2500⟩ : ScanStatus).Resilver = false →
        (⟨"a", true, false, (1209 : ℚ) / 2500⟩ : ScanStatus).Progress = 0) :=
  c6_scan_invariants "pool: a\nscan: scrub in progress\n  48.36% done" _ (by decide)

/-- Claim C7, confirmed.  If the (trimmed, newline-split) input to
`parsePools` or `parseDatasets` contains a non-empty line with the wrong
tab-separated field count (8 for pools, 7 for datasets) or a failing
numeric field conversion, the whole call returns an error — by the result
type, no partial record list is ever returned alongside it. -/
theorem c7_whole_call_failure (dataP dataD : String)
    (hP : (splitStr '\n' (goTrimSpace dataP)).any poolLineBad = true)
    (hD : (splitStr '\n' (goTrimSpace dataD)).any datasetLineBad = true) :
    (∃ e, parsePools dataP = .error e) ∧ (∃ e, parseDatasets dataD = .error e) := by
  constructor
  · unfold parsePools
    by_cases hc : goTrimSpace dataP = ""
    · rw [hc] at hP
      exact absurd hP (by decide)
    · rw [if_neg hc]
      exact parsePoolLines_err _ hP
  · unfold parseDatasets
    by_cases hc : goTrimSpace dataD = ""
    · rw [hc] at hD
      exact absurd hD (by decide)
    · rw [if_neg hc]
      exact parseDatasetLines_err _ hD

/-- Claim C7, witness: a pool line with a non-numeric size field and a
dataset line with a non-numeric referenced field each fail the whole
call. -/
theorem c7_whole_call_failure_witness :
    (∃ e, parsePools "tank\tx\t1\t1\t0\t1.0\tONLINE\toff" = .error e) ∧
    (∃ e, parseDatasets "tank\t1\t2\tz\tfilesystem\ton\toff" = .error e) :=
  c7_whole_call_failure "tank\tx\t1\t1\t0\t1.0\tONLINE\toff"
    "tank\t1\t2\tz\tfilesystem\ton\toff" (by decide) (by decide)

unseal Rat.inv Rat.mul in
/-- Claim C8, counterexample.  The claim adds that `N/100` is "a value
normalized to `[0,1]`"; the parser divides any unsigned integer by 100
without clamping, so fragmentation field `200` yields the value 2, outside
`[0,1]`. -/
theorem c8_counterexample :
    parsePoolFields ["t", "1", "1", "1", "200", "1.0", "ONLINE", "off"] =
      .ok ⟨"t", 1, 1, 1, .finite 2, .finite 1, "ONLINE", false⟩ ∧
    ¬((2 : ℚ) ≤ 1) := by
  constructor <;> decide

/-- Claim C8, amended.  For every well-formed pool line, a fragmentation
field `-` yields the NaN sentinel, and any unsigned-integer fragmentation
field `N` yields exactly `N/100` (a value in `[0,1]` only when
`N ≤ 100`). -/
theorem c8_fragmentation (f0 f1 f2 f3 f4 f5 f6 f7 : String) (a b c : Nat) (dv : GoFloat)
    (h1 : parseUint64 f1 = some a) (h2 : parseUint64 f2 = some b)
    (h3 : parseUint64 f3 = some c) (h5 : parseGoFloat f5 = some dv) :
    (f4 = "-" → parsePoolFields [f0, f1, f2, f3, f4, f5, f6, f7] =
      .ok ⟨f0, a, b, c, GoFloat.nan, dv, goToUpper f6, f7 = "on"⟩) ∧
    (∀ n, parseUint64 f4 = some n → parsePoolFields [f0, f1, f2, f3, f4, f5, f6, f7] =
      .ok ⟨f0, a, b, c, GoFloat.finite ((n : ℚ) / 100), dv, goToUpper f6, f7 = "on"⟩) := by
  constructor
  · intro h4
    simp [parsePoolFields, reqSome, h1, h2, h3, h4, h5]
  · intro n hn
    have hdashnone : parseUint64 "-" = none := by decide
    have hne : f4 ≠ "-" := by
      intro hh
      rw [hh, hdashnone] at hn
      cases hn
    simp [parsePoolFields, reqSome, h1, h2, h3, hne, hn, h5]

unseal Rat.inv Rat.mul in
/-- Claim C8, witness: the sentinel line and a `50`-fragmentation line. -/
theorem c8_fragmentation_witness :
    parsePoolFields ["t", "1", "2", "3", "-", "1.0", "online", "on"] =
      .ok ⟨"t", 1, 2, 3, GoFloat.nan, .finite 1, "ONLINE", true⟩ ∧
    parsePoolFields ["t", "1", "2", "3", "50", "1.0", "online", "off"] =
      .ok ⟨"t", 1, 2, 3, .finite ((1 : ℚ) / 2), .finite 1, "ONLINE", false⟩ :=
  ⟨((c8_fragmentation "t" "1" "2" "3" "-" "1.0" "online" "on" 1 2 3 (.finite 1)
      (by decide) (by decide) (by decide) (by decide)).1 rfl).trans (by decide),
   ((c8_fragmentation "t" "1" "2" "3" "50" "1.0" "online" "off" 1 2 3 (.finite 1)
      (by decide) (by decide) (by decide) (by decide)).2 50 (by decide)).trans (by decide)⟩

/-- Claim C9, confirmed.  The share-enabled flags are false exactly for the
raw property strings `off` and `-`, and true for every other string; every
well-formed dataset line wires its two share fields through this
derivation. -/
theorem c9_share_flags :
    (∀ val : String, isShareEnabled val = false ↔ (val = "off" ∨ val = "-")) ∧
    (∀ f0 f1 f2 f3 f4 f5 f6 : String, ∀ a b c : Nat,
      parseUint64 f1 = some a → parseUint64 f2 = some b → parseUint64 f3 = some c →
      parseDatasetFields [f0, f1, f2, f3, f4, f5, f6] =
        .ok ⟨f0, extractPool f0, a, b, c, f4, isShareEnabled f5, isShareEnabled f6⟩) := by
  constructor
  · intro val
    simp only [isShareEnabled, Bool.and_eq_false_iff, bne_eq_false_iff_eq, Bool.not_eq_true,
      bne]
    constructor
    · intro h
      rcases h with h | h
      · left; simpa using h
      · right; simpa using h
    · intro h
      rcases h with h | h
      · left; simp [h]
      · right; simp [h]
  · intro f0 f1 f2 f3 f4 f5 f6 a b c h1 h2 h3
    simp [parseDatasetFields, reqSome, h1, h2, h3]

/-- Claim C9, witness: an NFS option string counts as shared, the volume
sentinel `-` does not. -/
theorem c9_share_flags_witness :
    parseDatasetFields
        ["tank/backups", "1", "2", "3", "filesystem", "rw=@10.0.0.0/24", "-"] =
      .ok ⟨"tank/backups", "tank", 1, 2, 3, "filesystem", true, false⟩ :=
  (c9_share_flags.2 "tank/backups" "1" "2" "3" "filesystem" "rw=@10.0.0.0/24" "-" 1 2 3
    (by decide) (by decide) (by decide)).trans (by decide)

/-- Claim C10, confirmed.  Every `collect` call emits exactly one
overall-up sample and exactly one scrape-duration sample, whatever the pool
result and optional results are, and the overall-up sample's value is 1
exactly when the pool fetch succeeded. -/
theorem c10_meta_metrics (dur : ℚ) (poolRes : Except String (List Pool))
    (opt : OptionalResults) :
    (collect dur poolRes opt).countP isUpEvent = 1 ∧
    (collect dur poolRes opt).countP isDurationEvent = 1 ∧
    Event.emit (.up (if exceptOk poolRes then 1 else 0)) ∈ collect dur poolRes opt := by
  obtain ⟨od, os, ov⟩ := opt
  cases poolRes with
  | error msg =>
    refine ⟨rfl, rfl, ?_⟩
    simp [collect, exceptOk]
  | ok pools =>
    have hup : ∀ ms : List Metric, (∀ m ∈ ms, isUpMetric m = false ∧ isDurMetric m = false) →
        (ms.map Event.emit).countP isUpEvent = 0 ∧
        (ms.map Event.emit).countP isDurationEvent = 0 := by
      intro ms hms
      constructor
      · exact countP_emit_eq_zero fun m hm => by
          rw [isUpEvent_emit]; exact (hms m hm).1
      · exact countP_emit_eq_zero fun m hm => by
          rw [isDurationEvent_emit]; exact (hms m hm).2
    have hpool := hup (poolMetrics pools) fun m hm => mem_poolMetrics_not_meta hm
    refine ⟨?_, ?_, ?_⟩
    · cases od with
      | error e =>
        cases os with
        | error e2 =>
          cases ov with
          | error e3 => simp [collect, List.countP_cons, List.countP_append, hpool.1,
              isUpEvent]
          | ok svcs => simp [collect, List.countP_cons, List.countP_append, hpool.1,
              (hup (serviceMetrics svcs) fun m hm => mem_serviceMetrics_not_meta hm).1,
              isUpEvent]
        | ok scans =>
          cases ov with
          | error e3 => simp [collect, List.countP_cons, List.countP_append, hpool.1,
              (hup (scanMetrics scans) fun m hm => mem_scanMetrics_not_meta hm).1,
              isUpEvent]
          | ok svcs => simp [collect, List.countP_cons, List.countP_append, hpool.1,
              (hup (scanMetrics scans) fun m hm => mem_scanMetrics_not_meta hm).1,
              (hup (serviceMetrics svcs) fun m hm => mem_serviceMetrics_not_meta hm).1,
              isUpEvent]
      | ok ds =>
        cases os with
        | error e2 =>
          cases ov with
          | error e3 => simp [collect, List.countP_cons, List.countP_append, hpool.1,
              (hup (datasetMetrics ds) fun m hm => mem_datasetMetrics_not_meta hm).1,
              isUpEvent]
          | ok svcs => simp [collect, List.countP_cons, List.countP_append, hpool.1,
              (hup (datasetMetrics ds) fun m hm => mem_datasetMetrics_not_meta hm).1,
              (hup (serviceMetrics svcs) fun m hm => mem_serviceMetrics_not_meta hm).1,
              isUpEvent]
        | ok scans =>
          cases ov with
          | error e3 => simp [collect, List.countP_cons, List.countP_append, hpool.1,
              (hup (datasetMetrics ds) fun m hm => mem_datasetMetrics_not_meta hm).1,
              (hup (scanMetrics scans) fun m hm => mem_scanMetrics_not_meta hm).1,
              isUpEvent]
          | ok svcs => simp [collect, List.countP_cons, List.countP_append, hpool.1,
              (hup (datasetMetrics ds) fun m hm => mem_datasetMetrics_not_meta hm).1,
              (hup (scanMetrics scans) fun m hm => mem_scanMetrics_not_meta hm).1,
              (hup (serviceMetrics svcs) fun m hm => mem_serviceMetrics_not_meta hm).1,
              isUpEvent]
    · cases od with
      | error e =>
        cases os with
        | error e2 =>
          cases ov with
          | error e3 => simp [collect, List.countP_cons, List.countP_append, hpool.2,
              isDurationEvent]
          | ok svcs => simp [collect, List.countP_cons, List.countP_append, hpool.2,
              (hup (serviceMetrics svcs) fun m hm => mem_serviceMetrics_not_meta hm).2,
              isDurationEvent]
        | ok scans =>
          cases ov with
          | error e3 => simp [collect, List.countP_cons, List.countP_append, hpool.2,
              (hup (scanMetrics scans) fun m hm => mem_scanMetrics_not_meta hm).2,
              isDurationEvent]
          | ok svcs => simp [collect, List.countP_cons, List.countP_append, hpool.2,
              (hup (scanMetrics scans) fun m hm => mem_scanMetrics_not_meta hm).2,
              (hup (serviceMetrics svcs) fun m hm => mem_serviceMetrics_not_meta hm).2,
              isDurationEvent]
      | ok ds =>
        cases os with
        | error e2 =>
          cases ov with
          | error e3 => simp [collect, List.countP_cons, List.countP_append, hpool.2,
              (hup (datasetMetrics ds) fun m hm => mem_datasetMetrics_not_meta hm).2,
              isDurationEvent]
          | ok svcs => simp [collect, List.countP_cons, List.countP_append, hpool.2,
              (hup (datasetMetrics ds) fun m hm => mem_datasetMetrics_not_meta hm).2,
              (hup (serviceMetrics svcs) fun m hm => mem_serviceMetrics_not_meta hm).2,
              isDurationEvent]
        | ok scans =>
          cases ov with
          | error e3 => simp [collect, List.countP_cons, List.countP_append, hpool.2,
              (hup (datasetMetrics ds) fun m hm => mem_datasetMetrics_not_meta hm).2,
              (hup (scanMetrics scans) fun m hm => mem_scanMetrics_not_meta hm).2,
              isDurationEvent]
          | ok svcs => simp [collect, List.countP_cons, List.countP_append, hpool.2,
              (hup (datasetMetrics ds) fun m hm => mem_datasetMetrics_not_meta hm).2,
              (hup (scanMetrics scans) fun m hm => mem_scanMetrics_not_meta hm).2,
              (hup (serviceMetrics svcs) fun m hm => mem_serviceMetrics_not_meta hm).2,
              isDurationEvent]
    · simp [collect, exceptOk]

end ZfsExp
